import Mathlib

attribute [local semireducible] Rat.add Rat.mul Rat.sub Rat.inv

deriving instance DecidableEq for Except

/-!
Verification development for the ORCESTRA flight segmentation utilities
(scripts/utils.py).

The numeric routines are shallowly embedded over the rationals.  Floating
point numbers are idealised as elements of ℚ; the numpy NaN that appears on
empty-array reductions and out-of-range interpolation is modelled by the
value none of an Option type.  External numeric capabilities (the pyproj
geodesic inverse solver, scipy Nelder-Mead minimisation, the floating point
square root used inside numpy std, and numpy's seeded random index choice)
are bundled in an `Oracles` record and quantified over in the theorems; the
code under study only plumbs their results around, which is exactly what is
verified here.
-/

/-- One track sample: a timestamp (seconds, as a rational) together with a
latitude and a longitude in degrees.  Models one row of a time-indexed
xarray dataset with fields time, lat, lon. -/
structure Sample where
  t : ℚ
  lat : ℚ
  lon : ℚ
deriving DecidableEq, Inhabited

/-- A track is an ordered list of samples (a time-indexed dataset). -/
abbrev Track := List Sample

/-- Result record of scipy.optimize.minimize for a scalar unknown: the
minimiser res.x[0] and the convergence flag res.success. -/
structure OptResult1 where
  x : ℚ
  success : Bool
deriving DecidableEq, Inhabited

/-- Result record of scipy.optimize.minimize for a two dimensional unknown:
the minimiser (res.x[0], res.x[1]) and the convergence flag res.success. -/
structure OptResult2 where
  x1 : ℚ
  x2 : ℚ
  success : Bool
deriving DecidableEq, Inhabited

/-- External numerical capabilities consumed by scripts/utils.py and not
reimplemented there:
* `geod lon1 lat1 lon2 lat2` is the pyproj geodesic inverse distance in
  metres (the two azimuth outputs are discarded by all call sites);
* `sq` is the floating point square root used inside numpy std;
* `minimize1` is scipy.optimize.minimize with method Nelder-Mead over a
  scalar; the cost may evaluate to none (NaN);
* `minimize2` is the same minimiser over a (lat, lon) pair;
* `choice3 seed m k` is the triple of indices produced by the k-th call of
  rng.choice(m, 3, replace=False) on numpy's default_rng(seed). -/
structure Oracles where
  geod : ℚ → ℚ → ℚ → ℚ → ℚ
  sq : ℚ → ℚ
  minimize1 : (ℚ → Option ℚ) → ℚ → OptResult1
  minimize2 : ((ℚ × ℚ) → ℚ) → (ℚ × ℚ) → OptResult2
  choice3 : ℕ → ℕ → ℕ → ℕ × ℕ × ℕ

/-- np.mean of a list of rationals; none models the NaN that numpy returns
(with a warning, not an exception) on an empty array. -/
def meanO (l : List ℚ) : Option ℚ :=
  if l.isEmpty then none else some (l.sum / l.length)

/-- Geodesic distances from each (lat, lon) input point to a candidate
centre: models geod.inv(lon, lat, np.full_like(lon, clon),
np.full_like(lat, clat)) as used in fit_circle and ransac_fit_circle. -/
def distList (O : Oracles) (lat lon : List ℚ) (clat clon : ℚ) : List ℚ :=
  List.zipWith (fun la lo => O.geod lo la clon clat) lat lon

/-- np.std (population standard deviation, ddof = 0) of a list, with the
square root delegated to the oracle; none models NaN on an empty array. -/
def stdO (O : Oracles) (l : List ℚ) : Option ℚ :=
  match meanO l with
  | none => none
  | some m => (meanO (l.map fun x => (x - m) ^ 2)).map O.sq

/-- Translation of fit_circle(lat, lon): initial guess is the arithmetic
mean of the coordinates; Nelder-Mead minimises the standard deviation of
the geodesic distances from the candidate centre to all points; the result
is the optimised centre together with the mean distance to it.  A none
result models the all-NaN triple the Python code produces when the inputs
are empty (np.mean of an empty array is NaN, which then poisons every
later quantity); np.std is only ever evaluated on the same arrays as
np.mean, so the getD 0 default below is unreachable whenever the inputs
are nonempty. -/
def fit_circle (O : Oracles) (lat lon : List ℚ) : Option (ℚ × ℚ × ℚ) :=
  match meanO lat, meanO lon with
  | some clat0, some clon0 =>
    let cost : ℚ × ℚ → ℚ := fun c => (stdO O (distList O lat lon c.1 c.2)).getD 0
    let res := O.minimize2 cost (clat0, clon0)
    (meanO (distList O lat lon res.x1 res.x2)).map fun r => (res.x1, res.x2, r)
  | _, _ => none

/-- Inlier count of a candidate circle over all points:
np.sum(np.abs(radius - d) <= distance_range). -/
def countInliers (O : Oracles) (lat lon : List ℚ) (clat clon radius range : ℚ) : ℕ :=
  ((distList O lat lon clat clon).filter (fun d => decide (|radius - d| ≤ range))).length

/-- Boolean inlier mask over all points for a candidate circle:
np.abs(radius - d) <= distance_range. -/
def inlierFlags (O : Oracles) (lat lon : List ℚ) (clat clon radius range : ℚ) : List Bool :=
  (distList O lat lon clat clon).map (fun d => decide (|radius - d| ≤ range))

/-- numpy boolean-mask selection l[mask]. -/
def selectB (l : List ℚ) (mask : List Bool) : List ℚ :=
  (List.zip l mask).filterMap (fun p => if p.2 then some p.1 else none)

/-- The tuple recorded for one RANSAC trial: (n_in, clat, clon, radius). -/
abbrev TrialTup := ℕ × ℚ × ℚ × ℚ

/-- The lexicographic key of a trial tuple; Python compares tuples of
numbers exactly lexicographically. -/
def tupKey (s : TrialTup) : ℕ ×ₗ (ℚ ×ₗ (ℚ ×ₗ ℚ)) :=
  toLex (s.1, toLex (s.2.1, toLex (s.2.2.1, s.2.2.2)))

/-- Python tuple comparison on trial tuples: Python compares tuples of
numbers lexicographically. -/
def tupLeP (s t : TrialTup) : Prop := tupKey s ≤ tupKey t

instance : DecidableRel tupLeP := fun s t => inferInstanceAs (Decidable (tupKey s ≤ tupKey t))

instance : IsTotal TrialTup tupLeP := ⟨fun s t => le_total (tupKey s) (tupKey t)⟩

instance : IsTrans TrialTup tupLeP := ⟨fun _ _ _ h1 h2 => le_trans h1 h2⟩

/-- Python's sorted(samples): a stable ascending sort under tuple
comparison, modelled by insertion sort (stability is irrelevant to the
value of sorted(samples)[-1], since tuples comparing equal under a total
lexicographic order are identical values). -/
def sortedSamples (l : List TrialTup) : List TrialTup := l.insertionSort tupLeP

/-- One RANSAC trial: draw the 3 indices of call k from the rng seeded with
12345, fit a circle to exactly those 3 points, and score it by the inlier
count over all points.  numpy raises on an out-of-range index, so the
getD 0 defaults are only meaningful under the validity assumption on the
choice oracle used by the theorems; the none branch of fit_circle is
unreachable because the sampled lists always have 3 elements. -/
def trialOf (O : Oracles) (lat lon : List ℚ) (range : ℚ) (k : ℕ) : TrialTup :=
  let ids := O.choice3 12345 lat.length k
  let slat := [lat.getD ids.1 0, lat.getD ids.2.1 0, lat.getD ids.2.2 0]
  let slon := [lon.getD ids.1 0, lon.getD ids.2.1 0, lon.getD ids.2.2 0]
  match fit_circle O slat slon with
  | some c => (countInliers O lat lon c.1 c.2.1 c.2.2 range, c.1, c.2.1, c.2.2)
  | none => (0, 0, 0, 0)

/-- Translation of ransac_fit_circle(lat, lon, distance_range, n).  The
ambient argument models the process-global numpy random state; the function
never consults it because it re-creates np.random.default_rng(12345) with
the fixed seed on every call.  sorted(samples)[-1] is the last element of
the lexicographically sorted trial list; the none branch of the match
models the IndexError that sorted([])[-1] would raise when n = 0. -/
def ransac_fit_circle (O : Oracles) (ambient : ℕ) (lat lon : List ℚ)
    (range : ℚ) (n : ℕ) : Option (ℚ × ℚ × ℚ) :=
  let samples := (List.range n).map (trialOf O lat lon range)
  match (sortedSamples samples).getLast? with
  | none => none
  | some w =>
    let good := inlierFlags O lat lon w.2.1 w.2.2.1 w.2.2.2 range
    fit_circle O (selectB lat good) (selectB lon good)

/-- np.argmin over a rational array: the index of the first occurrence of
the minimal value; none models the ValueError numpy raises on an empty
array. -/
def argminQ (l : List ℚ) : Option ℕ :=
  (l.min?).map (fun m => List.indexOf m l)

/-- Index of the first NaN (modelled none) in an array, if any. -/
def firstNoneIdx : List (Option ℚ) → Option ℕ
  | [] => none
  | none :: _ => some 0
  | some _ :: xs => (firstNoneIdx xs).map (· + 1)

/-- np.argmin over an array that may contain NaN entries: numpy returns the
index of the first NaN when one is present, and the first minimum
otherwise; none models the ValueError raised on an empty array. -/
def argminO (l : List (Option ℚ)) : Option ℕ :=
  match firstNoneIdx l with
  | some i => some i
  | none => argminQ (l.map (fun o => o.getD 0))

/-- Linear interpolation on the segment from (t0, v0) to (t1, v1). -/
def lerpSeg (t0 v0 t1 v1 t : ℚ) : ℚ := v0 + (v1 - v0) * (t - t0) / (t1 - t0)

/-- Linear interpolation in time of one field of a track, as performed by
xarray .interp(time=t, method="linear"): none models both the NaN produced
outside the coordinate range and the NaN produced when a neighbouring value
is itself NaN; the single-point case models the failure scipy raises for
fewer than two data points and is never reached under the length
hypotheses used by the theorems. -/
def interpO : List (ℚ × Option ℚ) → ℚ → Option ℚ
  | [], _ => none
  | [_], _ => none
  | (t0, v0) :: (t1, v1) :: rest, t =>
    if t < t0 then none
    else if t ≤ t1 then
      match v0, v1 with
      | some a, some b => some (lerpSeg t0 a t1 b t)
      | _, _ => none
    else interpO ((t1, v1) :: rest) t

/-- The (time, lat) sample points of a track, as an interpolation table. -/
def latPts (tr : Track) : List (ℚ × Option ℚ) := tr.map (fun s => (s.t, some s.lat))

/-- The (time, lon) sample points of a track, as an interpolation table. -/
def lonPts (tr : Track) : List (ℚ × Option ℚ) := tr.map (fun s => (s.t, some s.lon))

/-- Failure conditions of the overpass finders.  indexEmpty models the
IndexError of b_track.time[[0, -1]] on an empty track; argminEmpty models
the ValueError of np.argmin on an empty array; emptyOverlap is the
descriptive error condition the specification document asks for and is
never produced by the code. -/
inductive TrackErr where
  | indexEmpty
  | argminEmpty
  | emptyOverlap
deriving DecidableEq

/-- Translation of get_overpass_point(ds, target_lat, target_lon): geodesic
distance from every sample to the fixed target, then a plain argmin. -/
def get_overpass_point (O : Oracles) (ds : Track) (target_lat target_lon : ℚ) :
    Except TrackErr (ℚ × ℚ) :=
  let dist := ds.map (fun s => O.geod s.lon s.lat target_lon target_lat)
  match argminQ dist with
  | none => .error .argminEmpty
  | some i => .ok (dist.getD i 0, (ds.getD i default).t)

/-- geod.inv applied to possibly-NaN interpolated coordinates: a NaN
(modelled none) in any input floats through to a NaN distance. -/
def interpDist (O : Oracles) (blon blat alon alat : Option ℚ) : Option ℚ :=
  match blon, blat, alon, alat with
  | some b1, some b2, some a1, some a2 => some (O.geod b1 b2 a1 a2)
  | _, _, _, _ => none

/-- a_track.sel(time=slice(t0, t1)): keep the samples whose time lies in
the closed window [t0, t1]. -/
def windowFilter (a : Track) (t0 t1 : ℚ) : Track :=
  a.filter (fun s => decide (t0 ≤ s.t) && decide (s.t ≤ t1))

/-- Distances between the restricted track a and the track b resampled onto
the times of a: models geod.inv applied to b.interp(time=a.time) and a,
with a none entry wherever the resampled position is NaN. -/
def coarseDists (O : Oracles) (a' : Track) (b : Track) : List (Option ℚ) :=
  a'.map (fun s =>
    match interpO (lonPts b) s.t, interpO (latPts b) s.t with
    | some blon, some blat => some (O.geod blon blat s.lon s.lat)
    | _, _ => none)

/-- Translation of get_overpass_track(a_track, b_track, optimize).  The
steps mirror the source: restrict a to the closed window spanned by the
first and last time of b, resample b onto the remaining times of a,
compute the geodesic distance at every shared timestamp, and take the
argmin as the coarse estimate.  Without optimisation the coarse pair is
returned; with optimisation both tracks are re-expressed in seconds
relative to the coarse time, a scalar cost interpolating both tracks is
minimised by Nelder-Mead starting from 0, and the distance and absolute
time at res.x are returned whatever the convergence flag says. -/
def get_overpass_track (O : Oracles) (a_track b_track : Track) (optimize : Bool) :
    Except TrackErr (Option ℚ × ℚ) :=
  match b_track.head?, b_track.getLast? with
  | some b0, some bN =>
    let a' := windowFilter a_track b0.t bN.t
    let dist := coarseDists O a' b_track
    match argminO dist with
    | none => .error .argminEmpty
    | some i =>
      if optimize then
        let tGuess := (a'.getD i default).t
        let aLat := a'.map (fun s => (s.t - tGuess, some s.lat))
        let aLon := a'.map (fun s => (s.t - tGuess, some s.lon))
        let rLat := a'.map (fun s => (s.t - tGuess, interpO (latPts b_track) s.t))
        let rLon := a'.map (fun s => (s.t - tGuess, interpO (lonPts b_track) s.t))
        let cost : ℚ → Option ℚ := fun t =>
          interpDist O (interpO rLon t) (interpO rLat t) (interpO aLon t) (interpO aLat t)
        let res := O.minimize1 cost 0
        .ok (cost res.x, tGuess + res.x)
      else
        .ok (dist.getD i none, (a'.getD i default).t)
  | _, _ => .error .indexEmpty

/-- A Python value as far as parse_segment is concerned: a tuple, a dict
with string keys in insertion order, or any other object (a slice, a
string, ...) represented by an opaque tag. -/
inductive PyVal where
  | tuple (elems : List PyVal)
  | dict (entries : List (String × PyVal))
  | other (tag : ℕ)

/-- Exceptions parse_segment can raise. -/
inductive PyErr where
  | indexError
deriving DecidableEq

/-- Translation of parse_segment(segment): a tuple is unpacked positionally
into the keys slice, kinds, name, remarks (the empty tuple raises
IndexError at segment[0]); a dict is returned unchanged; anything else is
wrapped as the slice entry of a fresh dict. -/
def parse_segment : PyVal → Except PyErr PyVal
  | .tuple [] => .error .indexError
  | .tuple (e0 :: rest) =>
    let seg := [("slice", e0)]
    let seg := match rest with
      | r1 :: _ => seg ++ [("kinds", r1)]
      | [] => seg
    let seg := match rest with
      | _ :: r2 :: _ => seg ++ [("name", r2)]
      | _ => seg
    let seg := match rest with
      | _ :: _ :: r3 :: _ => seg ++ [("remarks", r3)]
      | _ => seg
    .ok (.dict seg)
  | .dict entries => .ok (.dict entries)
  | .other g => .ok (.dict [("slice", .other g)])

/-- Spec-side arithmetic mean of a nonempty list of rationals. -/
def meanOf (l : List ℚ) : ℚ := l.sum / l.length

/-- Spec-side cost of the deterministic circle fitter: the standard
deviation (square root of the mean squared deviation) of the geodesic
distances from a candidate centre to all input points. -/
def std_cost (O : Oracles) (lat lon : List ℚ) : ℚ × ℚ → ℚ := fun c =>
  O.sq (meanOf ((distList O lat lon c.1 c.2).map
    fun d => (d - meanOf (distList O lat lon c.1 c.2)) ^ 2))

/-- Spec-side step 1 of the track overpass finder: restrict A to the time
window covered by B, i.e. B's first and last timestamp. -/
def restrict_to_window (a b : Track) : Track :=
  windowFilter a (b.headD default).t (b.getLastD default).t

/-- Spec-side steps 1-3 of the track overpass finder: geodesic distance
between the restricted track and the resampled track at every shared
timestamp, argmin as the coarse estimate, returned directly. -/
def coarse_overpass (O : Oracles) (a b : Track) : Except TrackErr (Option ℚ × ℚ) :=
  let a' := restrict_to_window a b
  let dist := coarseDists O a' b
  match argminO dist with
  | some i => .ok (dist.getD i none, (a'.getD i default).t)
  | none => .error .argminEmpty

/-- Spec-side trial circle: the deterministic circle fitter applied to
exactly the 3 points drawn by the k-th call of the seeded generator. -/
def trial_circle (O : Oracles) (lat lon : List ℚ) (k : ℕ) : Option (ℚ × ℚ × ℚ) :=
  let ids := O.choice3 12345 lat.length k
  fit_circle O [lat.getD ids.1 0, lat.getD ids.2.1 0, lat.getD ids.2.2 0]
    [lon.getD ids.1 0, lon.getD ids.2.1 0, lon.getD ids.2.2 0]

/-- Validity of numpy's index sampling: rng.choice(m, 3, replace=False)
returns three pairwise distinct indices below m. -/
def ChoiceValid (O : Oracles) (seed m : ℕ) : Prop :=
  ∀ k, (O.choice3 seed m k).1 < m ∧ (O.choice3 seed m k).2.1 < m ∧
    (O.choice3 seed m k).2.2 < m ∧ (O.choice3 seed m k).1 ≠ (O.choice3 seed m k).2.1 ∧
    (O.choice3 seed m k).1 ≠ (O.choice3 seed m k).2.2 ∧
    (O.choice3 seed m k).2.1 ≠ (O.choice3 seed m k).2.2

/-- Strictly increasing timestamps, the track well-formedness condition of
the data model. -/
def TimesSorted (tr : Track) : Prop := tr.Chain' (fun s1 s2 => s1.t < s2.t)

lemma meanO_eq_some {l : List ℚ} (h : l ≠ []) : meanO l = some (meanOf l) := by
  simp [meanO, meanOf, h]

lemma meanO_isSome {l : List ℚ} (h : l ≠ []) : (meanO l).isSome := by
  simp [meanO_eq_some h]

lemma distList_ne_nil {O : Oracles} {lat lon : List ℚ} (hlat : lat ≠ [])
    (hlon : lon ≠ []) (clat clon : ℚ) : distList O lat lon clat clon ≠ [] := by
  cases lat with
  | nil => exact absurd rfl hlat
  | cons a as =>
    cases lon with
    | nil => exact absurd rfl hlon
    | cons b bs => simp [distList]

lemma pairwise_rel_getLast {α : Type} {r : α → α → Prop} :
    ∀ (l : List α), List.Pairwise r l → ∀ (hne : l ≠ []) (x : α), x ∈ l →
      x = l.getLast hne ∨ r x (l.getLast hne) := by
  intro l
  induction l with
  | nil => intro _ hne; exact absurd rfl hne
  | cons a tl ih =>
    intro hp hne x hx
    cases tl with
    | nil =>
      simp only [List.mem_singleton] at hx
      left
      simp [hx]
    | cons b tl2 =>
      have hlast : (a :: b :: tl2).getLast hne = (b :: tl2).getLast (by simp) := by
        simp [List.getLast_cons]
      rw [hlast]
      rcases List.mem_cons.mp hx with hxa | hxtl
      · right
        subst hxa
        exact (List.pairwise_cons.mp hp).1 _ (List.getLast_mem _)
      · exact ih (List.pairwise_cons.mp hp).2 (by simp) x hxtl

lemma pairwise_head_rel {α : Type} {r : α → α → Prop} (l : List α)
    (hp : List.Pairwise r l) (hne : l ≠ []) (x : α) (hx : x ∈ l) :
    x = l.head hne ∨ r (l.head hne) x := by
  cases l with
  | nil => exact absurd rfl hne
  | cons a tl =>
    rcases List.mem_cons.mp hx with hxa | hxtl
    · left; simp [hxa]
    · right; exact (List.pairwise_cons.mp hp).1 _ hxtl

lemma argminQ_spec {l : List ℚ} (h : l ≠ []) :
    ∃ i, argminQ l = some i ∧ i < l.length ∧
      ∀ j, j < l.length → l.getD i 0 ≤ l.getD j 0 := by
  have hmin : ∃ m, l.min? = some m := by
    cases hm : l.min? with
    | none => exact absurd (List.min?_eq_none_iff.mp hm) h
    | some m => exact ⟨m, rfl⟩
  obtain ⟨m, hm⟩ := hmin
  have : Std.Antisymm fun x1 x2 : ℚ => x1 ≤ x2 := ⟨fun h1 h2 => le_antisymm h1 h2⟩
  have hspec := (List.min?_eq_some_iff (fun a => le_refl a) (fun a b => min_choice a b)
    (fun _ _ _ => le_min_iff)).mp hm
  have hmem : m ∈ l := hspec.1
  have hidx : List.indexOf m l < l.length := List.indexOf_lt_length.mpr hmem
  refine ⟨List.indexOf m l, by simp [argminQ, hm], hidx, ?_⟩
  intro j hj
  have hget : l.getD (List.indexOf m l) 0 = m := by
    rw [List.getD_eq_getElem l 0 hidx]
    exact List.indexOf_get hidx
  rw [hget, List.getD_eq_getElem l 0 hj]
  exact hspec.2 _ (List.getElem_mem hj)

lemma firstNoneIdx_eq_none {l : List (Option ℚ)} (h : ∀ x ∈ l, x.isSome) :
    firstNoneIdx l = none := by
  induction l with
  | nil => rfl
  | cons x xs ih =>
    cases x with
    | none => exact absurd (h none (by simp)) (by simp)
    | some v =>
      simp only [firstNoneIdx]
      rw [ih (fun y hy => h y (by simp [hy]))]
      rfl

lemma argminO_all_some {l : List (Option ℚ)} (h : ∀ x ∈ l, x.isSome) :
    argminO l = argminQ (l.map (fun o => o.getD 0)) := by
  simp [argminO, firstNoneIdx_eq_none h]

lemma interpO_isSome :
    ∀ (l : List (ℚ × Option ℚ)), (∀ p ∈ l, p.2.isSome) →
      l.Chain' (fun p q => p.1 < q.1) → ∀ t : ℚ, 2 ≤ l.length →
      (l.headD (0, none)).1 ≤ t → t ≤ (l.getLastD (0, none)).1 →
      (interpO l t).isSome := by
  intro l
  induction l with
  | nil => intro _ _ t h2; simp at h2
  | cons x tl ih =>
    intro hv hc t h2 hhead hlast
    cases tl with
    | nil => simp at h2
    | cons y tl2 =>
      have hx : ¬ t < x.1 := not_lt.mpr (by simpa using hhead)
      by_cases hy : t ≤ y.1
      · obtain ⟨vx, hvx⟩ := Option.isSome_iff_exists.mp (hv x (by simp))
        obtain ⟨vy, hvy⟩ := Option.isSome_iff_exists.mp (hv y (by simp))
        cases x with
        | mk xt xv =>
          cases y with
          | mk yt yv =>
            simp only at hvx hvy
            subst hvx hvy
            simp [interpO, hx, hy]
      · cases tl2 with
        | nil =>
          exact absurd (by simpa [List.getLastD] using hlast) hy
        | cons z tl3 =>
          have hrec : interpO (x :: y :: z :: tl3) t = interpO (y :: z :: tl3) t := by
            obtain ⟨vx, hvx⟩ := Option.isSome_iff_exists.mp (hv x (by simp))
            obtain ⟨vy, hvy⟩ := Option.isSome_iff_exists.mp (hv y (by simp))
            cases x with
            | mk xt xv =>
              cases y with
              | mk yt yv =>
                simp [interpO, hx, hy]
          rw [hrec]
          refine ih (fun p hp => hv p (by simp [List.mem_cons] at hp ⊢; tauto))
            (List.Chain'.tail hc) t (by simp) (le_of_lt (not_le.mp hy)) ?_
          simpa [List.getLastD] using hlast

lemma windowFilter_mem {a : Track} {t0 t1 : ℚ} {s : Sample}
    (h : s ∈ windowFilter a t0 t1) : s ∈ a ∧ t0 ≤ s.t ∧ s.t ≤ t1 := by
  have hm := List.mem_filter.mp h
  have h2 := hm.2
  simp only [Bool.and_eq_true, decide_eq_true_eq] at h2
  exact ⟨hm.1, h2.1, h2.2⟩

lemma latPts_isSome {b : Track} : ∀ p ∈ latPts b, p.2.isSome := by
  intro p hp
  simp only [latPts, List.mem_map] at hp
  obtain ⟨s, _, rfl⟩ := hp
  rfl

lemma lonPts_isSome {b : Track} : ∀ p ∈ lonPts b, p.2.isSome := by
  intro p hp
  simp only [lonPts, List.mem_map] at hp
  obtain ⟨s, _, rfl⟩ := hp
  rfl

lemma latPts_chain {b : Track} (hbs : TimesSorted b) :
    (latPts b).Chain' (fun p q => p.1 < q.1) := by
  exact (List.chain'_map _).mpr hbs

lemma lonPts_chain {b : Track} (hbs : TimesSorted b) :
    (lonPts b).Chain' (fun p q => p.1 < q.1) := by
  exact (List.chain'_map _).mpr hbs

lemma latPts_headD {b : Track} (hb : b ≠ []) :
    ((latPts b).headD (0, none)).1 = (b.headD default).t := by
  cases b with
  | nil => exact absurd rfl hb
  | cons x xs => simp [latPts]

lemma lonPts_headD {b : Track} (hb : b ≠ []) :
    ((lonPts b).headD (0, none)).1 = (b.headD default).t := by
  cases b with
  | nil => exact absurd rfl hb
  | cons x xs => simp [lonPts]

lemma latPts_getLastD {b : Track} (hb : b ≠ []) :
    ((latPts b).getLastD (0, none)).1 = (b.getLastD default).t := by
  rw [List.getLastD_eq_getLast?, List.getLastD_eq_getLast?, latPts, List.getLast?_map]
  rw [List.getLast?_eq_getLast b hb]
  rfl

lemma lonPts_getLastD {b : Track} (hb : b ≠ []) :
    ((lonPts b).getLastD (0, none)).1 = (b.getLastD default).t := by
  rw [List.getLastD_eq_getLast?, List.getLastD_eq_getLast?, lonPts, List.getLast?_map]
  rw [List.getLast?_eq_getLast b hb]
  rfl

lemma interpO_latPts_isSome {b : Track} (hb2 : 2 ≤ b.length) (hbs : TimesSorted b)
    {t : ℚ} (h0 : (b.headD default).t ≤ t) (h1 : t ≤ (b.getLastD default).t) :
    (interpO (latPts b) t).isSome := by
  have hb : b ≠ [] := by
    intro h; subst h; simp at hb2
  refine interpO_isSome (latPts b) latPts_isSome (latPts_chain hbs) t ?_ ?_ ?_
  · simpa [latPts] using hb2
  · rw [latPts_headD hb]; exact h0
  · rw [latPts_getLastD hb]; exact h1

lemma interpO_lonPts_isSome {b : Track} (hb2 : 2 ≤ b.length) (hbs : TimesSorted b)
    {t : ℚ} (h0 : (b.headD default).t ≤ t) (h1 : t ≤ (b.getLastD default).t) :
    (interpO (lonPts b) t).isSome := by
  have hb : b ≠ [] := by
    intro h; subst h; simp at hb2
  refine interpO_isSome (lonPts b) lonPts_isSome (lonPts_chain hbs) t ?_ ?_ ?_
  · simpa [lonPts] using hb2
  · rw [lonPts_headD hb]; exact h0
  · rw [lonPts_getLastD hb]; exact h1

lemma coarseDists_all_some {O : Oracles} {a' b : Track} (hb2 : 2 ≤ b.length)
    (hbs : TimesSorted b)
    (hwin : ∀ s ∈ a', (b.headD default).t ≤ s.t ∧ s.t ≤ (b.getLastD default).t) :
    ∀ x ∈ coarseDists O a' b, x.isSome := by
  intro x hx
  simp only [coarseDists, List.mem_map] at hx
  obtain ⟨s, hs, rfl⟩ := hx
  obtain ⟨hlo, hhi⟩ := hwin s hs
  obtain ⟨vlon, hvlon⟩ := Option.isSome_iff_exists.mp (interpO_lonPts_isSome hb2 hbs hlo hhi)
  obtain ⟨vlat, hvlat⟩ := Option.isSome_iff_exists.mp (interpO_latPts_isSome hb2 hbs hlo hhi)
  simp [hvlon, hvlat]

lemma coarseDists_length {O : Oracles} {a' b : Track} :
    (coarseDists O a' b).length = a'.length := by
  simp [coarseDists]

lemma coarse_argmin {O : Oracles} {a' b : Track} (hb2 : 2 ≤ b.length)
    (hbs : TimesSorted b)
    (hwin : ∀ s ∈ a', (b.headD default).t ≤ s.t ∧ s.t ≤ (b.getLastD default).t)
    (hne : a' ≠ []) :
    ∃ i, argminO (coarseDists O a' b) = some i ∧ i < a'.length ∧
      (∀ j, j < a'.length → ((coarseDists O a' b).getD j none).isSome) ∧
      ∀ j, j < a'.length →
        ((coarseDists O a' b).getD i none).getD 0 ≤
        ((coarseDists O a' b).getD j none).getD 0 := by
  have hlen : (coarseDists O a' b).length = a'.length := coarseDists_length
  have hsome := @coarseDists_all_some O a' b hb2 hbs hwin
  have hgetsome : ∀ j, j < a'.length → ((coarseDists O a' b).getD j none).isSome := by
    intro j hj
    have hj' : j < (coarseDists O a' b).length := by rw [hlen]; exact hj
    rw [List.getD_eq_getElem _ _ hj']
    exact hsome _ (List.getElem_mem hj')
  have hvne : (coarseDists O a' b).map (fun o => o.getD 0) ≠ [] := by
    intro hcon
    have : coarseDists O a' b = [] := by
      cases hd : coarseDists O a' b with
      | nil => rfl
      | cons u us => rw [hd] at hcon; simp at hcon
    rw [this] at hlen
    exact hne (List.length_eq_zero.mp hlen.symm)
  obtain ⟨i, hqi, hilen, hmin⟩ := argminQ_spec hvne
  have hlen2 : ((coarseDists O a' b).map (fun o => o.getD 0)).length = a'.length := by
    simp [hlen]
  have hval : ∀ j, j < a'.length →
      ((coarseDists O a' b).map (fun o => o.getD 0)).getD j 0 =
      ((coarseDists O a' b).getD j none).getD 0 := by
    intro j hj
    have hj' : j < (coarseDists O a' b).length := by rw [hlen]; exact hj
    have hj2 : j < ((coarseDists O a' b).map (fun o => o.getD 0)).length := by
      rw [hlen2]; exact hj
    rw [List.getD_eq_getElem _ _ hj2, List.getD_eq_getElem _ _ hj', List.getElem_map]
  refine ⟨i, by rw [argminO_all_some hsome]; exact hqi, by rw [hlen2] at hilen; exact hilen,
    hgetsome, ?_⟩
  intro j hj
  have hi' : i < a'.length := by rw [hlen2] at hilen; exact hilen
  rw [← hval i hi', ← hval j hj]
  exact hmin j (by rw [hlen2]; exact hj)

lemma track_false_eq_coarse (O : Oracles) (a b : Track) (hb : b ≠ []) :
    get_overpass_track O a b false = coarse_overpass O a b := by
  obtain ⟨x, xs, rfl⟩ := List.exists_cons_of_ne_nil hb
  have hh : (x :: xs).head? = some x := rfl
  have hl : (x :: xs).getLast? = some ((x :: xs).getLast (by simp)) :=
    List.getLast?_eq_getLast _ _
  have hhd : (x :: xs).headD default = x := rfl
  have hld : (x :: xs).getLastD default = (x :: xs).getLast (by simp) := by
    rw [List.getLastD_eq_getLast?, hl]; rfl
  simp only [get_overpass_track, coarse_overpass, restrict_to_window, hh, hl, hhd, hld]
  cases hq : argminO (coarseDists O (windowFilter a x.t ((x :: xs).getLast (by simp)).t)
      (x :: xs)) with
  | none => rfl
  | some i => rfl

lemma fit_circle_eq {O : Oracles} {lat lon : List ℚ} (hlat : lat ≠ []) (hlon : lon ≠ []) :
    fit_circle O lat lon =
      some ((O.minimize2 (std_cost O lat lon) (meanOf lat, meanOf lon)).x1,
        (O.minimize2 (std_cost O lat lon) (meanOf lat, meanOf lon)).x2,
        meanOf (distList O lat lon
          (O.minimize2 (std_cost O lat lon) (meanOf lat, meanOf lon)).x1
          (O.minimize2 (std_cost O lat lon) (meanOf lat, meanOf lon)).x2)) := by
  have hcost : (fun c : ℚ × ℚ => (stdO O (distList O lat lon c.1 c.2)).getD 0) =
      std_cost O lat lon := by
    funext c
    have hdl : distList O lat lon c.1 c.2 ≠ [] := distList_ne_nil hlat hlon _ _
    have hmap : (distList O lat lon c.1 c.2).map
        (fun x => (x - meanOf (distList O lat lon c.1 c.2)) ^ 2) ≠ [] := by
      cases hd : distList O lat lon c.1 c.2 with
      | nil => exact absurd hd hdl
      | cons u us => simp
    simp only [stdO, meanO_eq_some hdl, meanO_eq_some hmap]
    simp [std_cost]
  rw [fit_circle, meanO_eq_some hlat, meanO_eq_some hlon]
  simp only [hcost]
  rw [meanO_eq_some (distList_ne_nil hlat hlon _ _)]
  rfl

lemma sortedSamples_getLast_max {l : List TrialTup} (hne : l ≠ []) :
    ∃ w, (sortedSamples l).getLast? = some w ∧ w ∈ l ∧ ∀ s ∈ l, tupLeP s w := by
  have hperm : (sortedSamples l).Perm l := List.perm_insertionSort tupLeP l
  have hsne : sortedSamples l ≠ [] := by
    intro hcon
    rw [hcon] at hperm
    exact hne (hperm.nil_eq).symm
  have hsorted : List.Sorted tupLeP (sortedSamples l) := List.sorted_insertionSort tupLeP l
  refine ⟨(sortedSamples l).getLast hsne, List.getLast?_eq_getLast _ _, ?_, ?_⟩
  · exact hperm.mem_iff.mp (List.getLast_mem hsne)
  · intro s hs
    have hs' : s ∈ sortedSamples l := hperm.mem_iff.mpr hs
    rcases pairwise_rel_getLast _ hsorted hsne s hs' with heq | hrel
    · rw [heq]; exact le_refl _
    · exact hrel

lemma trialOf_eq (O : Oracles) (lat lon : List ℚ) (range : ℚ) (k : ℕ) :
    ∃ c, trial_circle O lat lon k = some c ∧
      trialOf O lat lon range k =
        (countInliers O lat lon c.1 c.2.1 c.2.2 range, c.1, c.2.1, c.2.2) := by
  have hfit := @fit_circle_eq O
    [lat.getD (O.choice3 12345 lat.length k).1 0,
      lat.getD (O.choice3 12345 lat.length k).2.1 0,
      lat.getD (O.choice3 12345 lat.length k).2.2 0]
    [lon.getD (O.choice3 12345 lat.length k).1 0,
      lon.getD (O.choice3 12345 lat.length k).2.1 0,
      lon.getD (O.choice3 12345 lat.length k).2.2 0] (by simp) (by simp)
  obtain ⟨c, hc⟩ : ∃ c, fit_circle O
      [lat.getD (O.choice3 12345 lat.length k).1 0,
        lat.getD (O.choice3 12345 lat.length k).2.1 0,
        lat.getD (O.choice3 12345 lat.length k).2.2 0]
      [lon.getD (O.choice3 12345 lat.length k).1 0,
        lon.getD (O.choice3 12345 lat.length k).2.1 0,
        lon.getD (O.choice3 12345 lat.length k).2.2 0] = some c := ⟨_, hfit⟩
  refine ⟨c, ?_, ?_⟩
  · rw [trial_circle]
    exact hc
  · rw [trialOf]
    simp only [hc]

instance : IsTrans Sample (fun s1 s2 => s1.t < s2.t) :=
  ⟨fun _ _ _ h1 h2 => lt_trans h1 h2⟩

lemma headD_eq_head {α : Type} {l : List α} (h : l ≠ []) (d : α) :
    l.headD d = l.head h := by
  cases l with
  | nil => exact absurd rfl h
  | cons x xs => rfl

lemma getLastD_eq_getLast {α : Type} {l : List α} (h : l ≠ []) (d : α) :
    l.getLastD d = l.getLast h := by
  rw [List.getLastD_eq_getLast?, List.getLast?_eq_getLast l h]
  rfl

lemma timesSorted_pairwise {tr : Track} (h : TimesSorted tr) :
    tr.Pairwise (fun s1 s2 => s1.t < s2.t) :=
  (List.chain'_iff_pairwise).mp h

lemma mem_time_bounds {tr : Track} (h : TimesSorted tr) (hne : tr ≠ []) {s : Sample}
    (hs : s ∈ tr) : (tr.headD default).t ≤ s.t ∧ s.t ≤ (tr.getLastD default).t := by
  have hp := timesSorted_pairwise h
  constructor
  · rcases pairwise_head_rel tr hp hne s hs with he | hlt
    · rw [headD_eq_head hne, he]
    · rw [headD_eq_head hne]
      exact le_of_lt hlt
  · rcases pairwise_rel_getLast tr hp hne s hs with he | hlt
    · rw [getLastD_eq_getLast hne, ← he]
    · rw [getLastD_eq_getLast hne]
      exact le_of_lt hlt

lemma getD_mem {α : Type} {l : List α} {i : ℕ} (h : i < l.length) (d : α) :
    l.getD i d ∈ l := by
  rw [List.getD_eq_getElem _ _ h]
  exact List.getElem_mem h

lemma interpDist_nonneg {O : Oracles}
    (hg : ∀ lon1 lat1 lon2 lat2, 0 ≤ O.geod lon1 lat1 lon2 lat2)
    (o1 o2 o3 o4 : Option ℚ) (q : ℚ) (h : interpDist O o1 o2 o3 o4 = some q) :
    0 ≤ q := by
  cases o1 <;> cases o2 <;> cases o3 <;> cases o4 <;>
    simp only [interpDist, Option.some.injEq, reduceCtorEq] at h
  rw [← h]
  exact hg _ _ _ _

lemma coarseDists_getD_nonneg {O : Oracles} {a' b : Track}
    (hg : ∀ lon1 lat1 lon2 lat2, 0 ≤ O.geod lon1 lat1 lon2 lat2)
    {j : ℕ} (hj : j < a'.length) :
    0 ≤ ((coarseDists O a' b).getD j none).getD 0 := by
  have hj' : j < (coarseDists O a' b).length := by
    rw [coarseDists_length]; exact hj
  rw [List.getD_eq_getElem _ _ hj']
  simp only [coarseDists, List.getElem_map]
  split
  · simpa using hg _ _ _ _
  · simp

lemma coarse_overpass_eq {O : Oracles} {a b : Track} {i : ℕ}
    (hq : argminO (coarseDists O (restrict_to_window a b) b) = some i) :
    coarse_overpass O a b =
      .ok ((coarseDists O (restrict_to_window a b) b).getD i none,
        ((restrict_to_window a b).getD i default).t) := by
  rw [coarse_overpass]
  simp only [hq]

lemma track_true_shape {O : Oracles} {a b : Track}
    (hg : ∀ lon1 lat1 lon2 lat2, 0 ≤ O.geod lon1 lat1 lon2 lat2) (hb : b ≠ [])
    (hq : ∃ i, argminO (coarseDists O (restrict_to_window a b) b) = some i) :
    ∃ dq tq, get_overpass_track O a b true = .ok (dq, tq) ∧
      ∀ q, dq = some q → 0 ≤ q := by
  obtain ⟨x, xs, rfl⟩ := List.exists_cons_of_ne_nil hb
  obtain ⟨i, hqi⟩ := hq
  have hne : x :: xs ≠ [] := by simp
  have hqi' : argminO (coarseDists O
      (windowFilter a x.t ((x :: xs).getLastD default).t) (x :: xs)) = some i := by
    simpa [restrict_to_window] using hqi
  have hgl : (x :: xs).getLast? = some ((x :: xs).getLastD default) := by
    rw [List.getLast?_eq_getLast _ hne, getLastD_eq_getLast hne]
  simp only [get_overpass_track, List.head?_cons, hgl, hqi', if_true]
  exact ⟨_, _, rfl, fun q h => interpDist_nonneg hg _ _ _ _ q h⟩

/-- Concrete oracle assembly for evaluating the development on closed
inputs: the geodesic solver is replaced by a taxicab distance (nonnegative
and vanishing on coincident points), the square root by the identity, both
minimisers return their initial guess as converged, and the index sampler
always draws (0, 1, 2). -/
def oWitness : Oracles :=
  { geod := fun lon1 lat1 lon2 lat2 => |lon2 - lon1| + |lat2 - lat1|
    sq := fun x => x
    minimize1 := fun _ x0 => ⟨x0, true⟩
    minimize2 := fun _ c => ⟨c.1, c.2, true⟩
    choice3 := fun _ _ _ => (0, 1, 2) }

/-- Oracle whose scalar minimiser reports non-convergence while returning
the point 7: an admissible Nelder-Mead outcome. -/
def oNoConv : Oracles := { oWitness with minimize1 := fun _ _ => ⟨7, false⟩ }

/-- Oracle whose scalar minimiser reports convergence at a point far from
the start: nothing in the unconstrained minimiser contract prevents it. -/
def oFar : Oracles := { oWitness with minimize1 := fun _ _ => ⟨1000000, true⟩ }

/-- Oracle with a scaled taxicab geodesic, used for the RANSAC
degenerate-inlier-set evaluation. -/
def oScaled : Oracles :=
  { oWitness with
    geod := fun lon1 lat1 lon2 lat2 => 100 * |lon2 - lon1| + 100 * |lat2 - lat1| }

lemma oWitness_geod_nonneg :
    ∀ lon1 lat1 lon2 lat2, 0 ≤ oWitness.geod lon1 lat1 lon2 lat2 :=
  fun _ _ _ _ => add_nonneg (abs_nonneg _) (abs_nonneg _)

/-- Replace the convergence flag reported by the scalar minimiser, leaving
the returned point unchanged. -/
def withSuccess1 (O : Oracles) (s : Bool) : Oracles :=
  { O with minimize1 := fun c x0 => { O.minimize1 c x0 with success := s } }

lemma point_eq {O : Oracles} {ds : Track} {tlat tlon : ℚ} {i : ℕ}
    (hq : argminQ (ds.map (fun s => O.geod s.lon s.lat tlon tlat)) = some i) :
    get_overpass_point O ds tlat tlon =
      .ok ((ds.map (fun s => O.geod s.lon s.lat tlon tlat)).getD i 0,
        (ds.getD i default).t) := by
  simp only [get_overpass_point, hq]

lemma argminQ_three {d0 d2 : ℚ} (h0 : 0 < d0) (h2 : 0 < d2) :
    argminQ [d0, 0, d2] = some 1 := by
  have hmin : [d0, 0, d2].min? = some 0 := by
    simp [List.min?, List.foldl, min_eq_right h0.le, min_eq_left h2.le]
  have hbeq : (d0 == (0 : ℚ)) = false := by
    simp only [beq_eq_false_iff_ne]
    exact h0.ne'
  rw [argminQ, hmin]
  simp [List.indexOf, List.findIdx, List.findIdx.go, hbeq]

/-- C7: ransac_fit_circle is deterministic across calls: the pseudorandom
generator is re-created from the fixed seed 12345 inside every call, so the
result does not depend on the ambient process-global random state, and two
calls on identical inputs return identical triples. -/
theorem C7_ransac_deterministic (O : Oracles) (amb1 amb2 : ℕ) (lat lon : List ℚ)
    (range : ℚ) (n : ℕ) :
    ransac_fit_circle O amb1 lat lon range n = ransac_fit_circle O amb2 lat lon range n :=
  rfl

/-- C10 counterexample: parse_segment applied to the empty tuple raises
IndexError at segment[0] instead of returning a dict with a slice key, so
the claim fails on the empty tuple. -/
theorem C10_empty_tuple_counterexample :
    parse_segment (.tuple []) = .error .indexError ∧
    ∀ d, parse_segment (.tuple []) ≠ .ok d :=
  ⟨rfl, fun d h => by simp [parse_segment] at h⟩

/-- C10 (amended): parse_segment returns every dict unchanged, maps every
nonempty tuple positionally onto the keys slice, kinds, name, remarks
(ignoring elements beyond the fourth), wraps any other value as the slice
entry, raises IndexError on the empty tuple, and is idempotent in the
Kleisli sense: binding the result through parse_segment again changes
nothing. -/
theorem C10_parse_segment_amended :
    (∀ entries, parse_segment (.dict entries) = .ok (.dict entries)) ∧
    (∀ e0, parse_segment (.tuple [e0]) = .ok (.dict [("slice", e0)])) ∧
    (∀ e0 e1, parse_segment (.tuple [e0, e1]) =
      .ok (.dict [("slice", e0), ("kinds", e1)])) ∧
    (∀ e0 e1 e2, parse_segment (.tuple [e0, e1, e2]) =
      .ok (.dict [("slice", e0), ("kinds", e1), ("name", e2)])) ∧
    (∀ e0 e1 e2 e3 rest, parse_segment (.tuple (e0 :: e1 :: e2 :: e3 :: rest)) =
      .ok (.dict [("slice", e0), ("kinds", e1), ("name", e2), ("remarks", e3)])) ∧
    (∀ g, parse_segment (.other g) = .ok (.dict [("slice", .other g)])) ∧
    (∀ x, (parse_segment x).bind parse_segment = parse_segment x) := by
  refine ⟨fun entries => rfl, fun e0 => rfl, fun e0 e1 => rfl, fun e0 e1 e2 => rfl,
    fun e0 e1 e2 e3 rest => rfl, fun g => rfl, ?_⟩
  intro x
  cases x with
  | dict entries => rfl
  | other g => rfl
  | tuple es =>
    cases es with
    | nil => rfl
    | cons e0 r1 =>
      cases r1 with
      | nil => rfl
      | cons e1 r2 =>
        cases r2 with
        | nil => rfl
        | cons e2 r3 =>
          cases r3 with
          | nil => rfl
          | cons e3 r4 => rfl

lemma timesSorted_one (s : Sample) : TimesSorted [s] := by
  simp [TimesSorted]

lemma timesSorted_two {s1 s2 : Sample} (h : s1.t < s2.t) : TimesSorted [s1, s2] := by
  simp [TimesSorted, h]

lemma getD_map_geod {O : Oracles} {tlat tlon : ℚ} {ds : Track} {i : ℕ}
    (h : i < ds.length) :
    (ds.map (fun s => O.geod s.lon s.lat tlon tlat)).getD i 0 =
      O.geod (ds.getD i default).lon (ds.getD i default).lat tlon tlat := by
  have h2 : i < (ds.map (fun s => O.geod s.lon s.lat tlon tlat)).length := by
    simpa using h
  rw [List.getD_eq_getElem _ _ h2, List.getElem_map, List.getD_eq_getElem _ _ h]

/-- C5: for a nonempty track get_overpass_point returns the minimal
geodesic sample-to-target distance paired with the timestamp of a sample
attaining it (plain argmin, no interpolation); in particular, on the track
[(0,0,t0), (0,1,t1), (0,2,t2)] with target (0,1) and a geodesic solver
that vanishes on the coincident pair and is positive on the two distinct
pairs, the result is distance 0 at time t1. -/
theorem C5_point_overpass (O : Oracles) (ds : Track) (tlat tlon : ℚ) (hne : ds ≠ [])
    (t0 t1 t2 : ℚ) (hg1 : O.geod 1 0 1 0 = 0) (hg0 : 0 < O.geod 0 0 1 0)
    (hg2 : 0 < O.geod 2 0 1 0) :
    (∃ i, i < ds.length ∧
      get_overpass_point O ds tlat tlon =
        .ok ((ds.map (fun s => O.geod s.lon s.lat tlon tlat)).getD i 0,
          (ds.getD i default).t) ∧
      ∀ j, j < ds.length →
        (ds.map (fun s => O.geod s.lon s.lat tlon tlat)).getD i 0 ≤
        (ds.map (fun s => O.geod s.lon s.lat tlon tlat)).getD j 0) ∧
    get_overpass_point O [⟨t0, 0, 0⟩, ⟨t1, 0, 1⟩, ⟨t2, 0, 2⟩] 0 1 = .ok (0, t1) := by
  constructor
  · have hmapne : ds.map (fun s => O.geod s.lon s.lat tlon tlat) ≠ [] := by
      cases ds with
      | nil => exact absurd rfl hne
      | cons u us => simp
    obtain ⟨i, hq, hlen, hmin⟩ := argminQ_spec hmapne
    have hlen' : i < ds.length := by simpa using hlen
    exact ⟨i, hlen', point_eq hq, fun j hj => hmin j (by simpa using hj)⟩
  · have hq : argminQ (([⟨t0, 0, 0⟩, ⟨t1, 0, 1⟩, ⟨t2, 0, 2⟩] : Track).map
        (fun s => O.geod s.lon s.lat 1 0)) = some 1 := by
      have hlist : ([⟨t0, 0, 0⟩, ⟨t1, 0, 1⟩, ⟨t2, 0, 2⟩] : Track).map
          (fun s => O.geod s.lon s.lat 1 0) =
          [O.geod 0 0 1 0, O.geod 1 0 1 0, O.geod 2 0 1 0] := by
        simp
      rw [hlist, hg1]
      exact argminQ_three hg0 hg2
    rw [point_eq hq]
    simp [hg1]

/-- C5 witness: the theorem applied at the taxicab oracle and concrete
tracks; the scenario conclusion evaluates to distance 0 at time 11. -/
theorem C5_point_overpass_witness :
    get_overpass_point oWitness [⟨10, 0, 0⟩, ⟨11, 0, 1⟩, ⟨12, 0, 2⟩] 0 1 = .ok (0, 11) :=
  (C5_point_overpass oWitness [⟨99, 0, 0⟩] 0 0 (by decide) 10 11 12 (by decide)
    (by decide) (by decide)).2

/-- C8: for at least 3 points, fit_circle starts from the arithmetic mean
of the coordinates, lets the derivative-free minimiser minimise the
standard deviation of the geodesic distances from the candidate centre to
all points, and returns the optimised centre with the mean distance to it
as radius. -/
theorem C8_fit_circle_structure (O : Oracles) (lat lon : List ℚ)
    (h3 : 3 ≤ lat.length) (hlen : lon.length = lat.length) :
    fit_circle O lat lon =
      some ((O.minimize2 (std_cost O lat lon) (meanOf lat, meanOf lon)).x1,
        (O.minimize2 (std_cost O lat lon) (meanOf lat, meanOf lon)).x2,
        meanOf (distList O lat lon
          (O.minimize2 (std_cost O lat lon) (meanOf lat, meanOf lon)).x1
          (O.minimize2 (std_cost O lat lon) (meanOf lat, meanOf lon)).x2)) := by
  have hlat : lat ≠ [] := by
    intro h
    rw [h] at h3
    simp at h3
  have hlon : lon ≠ [] := by
    intro h
    rw [h] at hlen
    rw [← hlen] at h3
    simp at h3
  exact fit_circle_eq hlat hlon

/-- C8 witness: the theorem applied at the taxicab oracle and three
concrete points. -/
theorem C8_fit_circle_witness :
    fit_circle oWitness [0, 0, 0] [1, 2, 3] =
      some ((oWitness.minimize2 (std_cost oWitness [0, 0, 0] [1, 2, 3])
          (meanOf [0, 0, 0], meanOf [1, 2, 3])).x1,
        (oWitness.minimize2 (std_cost oWitness [0, 0, 0] [1, 2, 3])
          (meanOf [0, 0, 0], meanOf [1, 2, 3])).x2,
        meanOf (distList oWitness [0, 0, 0] [1, 2, 3]
          (oWitness.minimize2 (std_cost oWitness [0, 0, 0] [1, 2, 3])
            (meanOf [0, 0, 0], meanOf [1, 2, 3])).x1
          (oWitness.minimize2 (std_cost oWitness [0, 0, 0] [1, 2, 3])
            (meanOf [0, 0, 0], meanOf [1, 2, 3])).x2)) :=
  C8_fit_circle_structure oWitness [0, 0, 0] [1, 2, 3] (by decide) (by decide)

/-- C6: with optimize false, get_overpass_track is exactly the spec
pipeline (restrict A to the window spanned by B's first and last
timestamps, resample B onto the remaining timestamps of A, geodesic
distance at every shared timestamp, argmin as the coarse estimate,
returned directly), and the returned pair is the distance and the
timestamp at an index minimising the distance array. -/
theorem C6_track_coarse_pipeline (O : Oracles) (a b : Track) (hb2 : 2 ≤ b.length)
    (hbs : TimesSorted b) (hov : restrict_to_window a b ≠ []) :
    get_overpass_track O a b false = coarse_overpass O a b ∧
    ∃ i, i < (restrict_to_window a b).length ∧
      get_overpass_track O a b false =
        .ok ((coarseDists O (restrict_to_window a b) b).getD i none,
          ((restrict_to_window a b).getD i default).t) ∧
      ((coarseDists O (restrict_to_window a b) b).getD i none).isSome ∧
      ∀ j, j < (restrict_to_window a b).length →
        ((coarseDists O (restrict_to_window a b) b).getD i none).getD 0 ≤
        ((coarseDists O (restrict_to_window a b) b).getD j none).getD 0 := by
  have hb : b ≠ [] := by
    intro h
    rw [h] at hb2
    simp at hb2
  have heq := track_false_eq_coarse O a b hb
  refine ⟨heq, ?_⟩
  have hwin : ∀ s ∈ restrict_to_window a b,
      (b.headD default).t ≤ s.t ∧ s.t ≤ (b.getLastD default).t :=
    fun s hs => (windowFilter_mem hs).2
  obtain ⟨i, hq, hil, hsome, hmin⟩ := coarse_argmin hb2 hbs hwin hov
  exact ⟨i, hil, by rw [heq]; exact coarse_overpass_eq hq, hsome i hil, hmin⟩

/-- C6 witness: the pipeline equality applied at the taxicab oracle and a
concrete pair of two-sample tracks. -/
theorem C6_track_coarse_witness :
    get_overpass_track oWitness [⟨0, 0, 0⟩, ⟨1, 0, 1⟩] [⟨0, 0, 0⟩, ⟨1, 0, 1⟩] false =
      coarse_overpass oWitness [⟨0, 0, 0⟩, ⟨1, 0, 1⟩] [⟨0, 0, 0⟩, ⟨1, 0, 1⟩] :=
  (C6_track_coarse_pipeline oWitness [⟨0, 0, 0⟩, ⟨1, 0, 1⟩] [⟨0, 0, 0⟩, ⟨1, 0, 1⟩]
    (by decide) (timesSorted_two (by decide)) (by decide)).1

/-- C4 counterexample: with optimize true the unconstrained minimiser may
return any point; at this input it reports success at offset 1000000, and
the call returns time 1000000 — far outside the overlap window [0, 2] —
together with a NaN (none) distance, so neither invariant of the claim
holds for the optimising branch. -/
theorem C4_invariant_counterexample :
    get_overpass_track oFar [⟨0, 0, 0⟩, ⟨2, 0, 1⟩] [⟨0, 0, 0⟩, ⟨2, 0, 1⟩] true =
      .ok (none, 1000000) ∧
    ¬ ((1000000 : ℚ) ≤ 2) := by
  constructor
  · decide
  · decide

/-- C4 (amended): the invariants hold for get_overpass_point and for the
coarse (optimize false) branch of get_overpass_track — distance nonnegative
(granted a nonnegative geodesic solver) and time inside the track span
respectively the overlap window — while for optimize true the code only
guarantees that the returned distance, when it is a number at all, is
nonnegative: the returned time t_guess + res.x is whatever the
unconstrained minimiser produced and is not confined to the overlap
window. -/
theorem C4_invariants_amended (O : Oracles)
    (hg : ∀ lon1 lat1 lon2 lat2, 0 ≤ O.geod lon1 lat1 lon2 lat2)
    (ds : Track) (tlat tlon : ℚ) (hne : ds ≠ []) (hds : TimesSorted ds)
    (a b : Track) (hb2 : 2 ≤ b.length) (hbs : TimesSorted b) (has : TimesSorted a)
    (hov : restrict_to_window a b ≠ []) :
    (∃ d t, get_overpass_point O ds tlat tlon = .ok (d, t) ∧ 0 ≤ d ∧
      (ds.headD default).t ≤ t ∧ t ≤ (ds.getLastD default).t) ∧
    (∃ q t, get_overpass_track O a b false = .ok (some q, t) ∧ 0 ≤ q ∧
      max (a.headD default).t (b.headD default).t ≤ t ∧
      t ≤ min (a.getLastD default).t (b.getLastD default).t) ∧
    (∃ dq t, get_overpass_track O a b true = .ok (dq, t) ∧
      ∀ q, dq = some q → 0 ≤ q) := by
  have hb : b ≠ [] := by
    intro h
    rw [h] at hb2
    simp at hb2
  have ha : a ≠ [] := by
    intro h
    rw [h] at hov
    exact hov rfl
  have hwin : ∀ s ∈ restrict_to_window a b,
      (b.headD default).t ≤ s.t ∧ s.t ≤ (b.getLastD default).t :=
    fun s hs => (windowFilter_mem hs).2
  obtain ⟨i, hq, hil, hsome, hmin⟩ :=
    @coarse_argmin O (restrict_to_window a b) b hb2 hbs hwin hov
  refine ⟨?_, ?_, ?_⟩
  · have hmapne : ds.map (fun s => O.geod s.lon s.lat tlon tlat) ≠ [] := by
      cases ds with
      | nil => exact absurd rfl hne
      | cons u us => simp
    obtain ⟨j, hqj, hjlen, _⟩ := argminQ_spec hmapne
    have hjlen' : j < ds.length := by simpa using hjlen
    have hmem : ds.getD j default ∈ ds := getD_mem hjlen' default
    have hbounds := mem_time_bounds hds hne hmem
    refine ⟨_, _, point_eq hqj, ?_, hbounds.1, hbounds.2⟩
    rw [getD_map_geod hjlen']
    exact hg _ _ _ _
  · have heq := track_false_eq_coarse O a b hb
    have hres := coarse_overpass_eq hq
    obtain ⟨q, hqv⟩ := Option.isSome_iff_exists.mp (hsome i hil)
    have hmem : (restrict_to_window a b).getD i default ∈ restrict_to_window a b :=
      getD_mem hil default
    have hmw := windowFilter_mem hmem
    have hina := mem_time_bounds has ha hmw.1
    refine ⟨q, ((restrict_to_window a b).getD i default).t, ?_, ?_, ?_, ?_⟩
    · rw [heq, hres, hqv]
    · have h0 := @coarseDists_getD_nonneg O (restrict_to_window a b) b hg i hil
      rw [hqv] at h0
      simpa using h0
    · exact max_le hina.1 hmw.2.1
    · exact le_min hina.2 hmw.2.2
  · exact track_true_shape hg hb ⟨i, hq⟩

/-- C4 witness: the amended theorem applied at the taxicab oracle and
concrete two-sample tracks; the point conclusion is extracted. -/
theorem C4_invariants_witness :
    ∃ d t, get_overpass_point oWitness [⟨0, 0, 0⟩, ⟨1, 0, 1⟩] 3 4 = .ok (d, t) ∧ 0 ≤ d ∧
      (([⟨0, 0, 0⟩, ⟨1, 0, 1⟩] : Track).headD default).t ≤ t ∧
      t ≤ (([⟨0, 0, 0⟩, ⟨1, 0, 1⟩] : Track).getLastD default).t :=
  (C4_invariants_amended oWitness oWitness_geod_nonneg [⟨0, 0, 0⟩, ⟨1, 0, 1⟩] 3 4
    (by decide) (timesSorted_two (by decide)) [⟨0, 0, 0⟩, ⟨1, 0, 1⟩]
    [⟨0, 0, 0⟩, ⟨1, 0, 1⟩] (by decide) (timesSorted_two (by decide))
    (timesSorted_two (by decide)) (by decide)).1

/-- C3 counterexample: on concretely disjoint tracks the call fails with
the opaque ValueError of np.argmin over the empty restricted array — not
with a descriptive EmptyOverlap condition. -/
theorem C3_disjoint_counterexample :
    get_overpass_track oWitness [⟨0, 0, 0⟩] [⟨10, 0, 0⟩, ⟨11, 0, 1⟩] true =
      .error .argminEmpty ∧
    TrackErr.argminEmpty ≠ TrackErr.emptyOverlap := by
  constructor
  · decide
  · decide

/-- C3 (amended): when the time spans of the two tracks do not overlap, the
restriction of A to B's window is empty and get_overpass_track (for either
optimize setting) fails with the ValueError that np.argmin raises on an
empty sequence; no EmptyOverlap condition is ever signalled. -/
theorem C3_disjoint_valueerror (O : Oracles) (a b : Track) (optimize : Bool)
    (hb : b ≠ [])
    (hdisj : ∀ s ∈ a, s.t < (b.headD default).t ∨ (b.getLastD default).t < s.t) :
    get_overpass_track O a b optimize = .error .argminEmpty := by
  obtain ⟨x, xs, rfl⟩ := List.exists_cons_of_ne_nil hb
  have hne : x :: xs ≠ [] := by simp
  have hgl : (x :: xs).getLast? = some ((x :: xs).getLastD default) := by
    rw [List.getLast?_eq_getLast _ hne, getLastD_eq_getLast hne]
  have hfilter : windowFilter a x.t ((x :: xs).getLastD default).t = [] := by
    rw [windowFilter, List.filter_eq_nil_iff]
    intro s hs
    simp only [Bool.and_eq_true, decide_eq_true_eq, not_and]
    intro hle
    rcases hdisj s hs with h1 | h2
    · exact absurd hle (not_le.mpr h1)
    · exact not_le.mpr h2
  simp only [get_overpass_track, List.head?_cons, hgl, hfilter]
  rfl

/-- C3 witness: the amended theorem applied at the taxicab oracle and
concretely disjoint tracks. -/
theorem C3_disjoint_valueerror_witness :
    get_overpass_track oWitness [⟨5, 0, 0⟩] [⟨1, 0, 0⟩, ⟨2, 0, 1⟩] false =
      .error .argminEmpty :=
  C3_disjoint_valueerror oWitness [⟨5, 0, 0⟩] [⟨1, 0, 0⟩, ⟨2, 0, 1⟩] false (by decide)
    (by decide)

/-- C2 counterexample: with an admissible minimiser outcome that reports
non-convergence at the point 7, get_overpass_track returns the value
computed at res.x = 7 (a NaN distance at time 7) instead of falling back
to the coarse estimate (distance 0 at time 0) that the same call computes
with optimize false. -/
theorem C2_no_fallback_counterexample :
    (oNoConv.minimize1 (fun _ => none) 0).success = false ∧
    get_overpass_track oNoConv [⟨0, 0, 0⟩, ⟨1, 0, 1⟩] [⟨0, 0, 0⟩, ⟨1, 0, 1⟩] true =
      .ok (none, 7) ∧
    get_overpass_track oNoConv [⟨0, 0, 0⟩, ⟨1, 0, 1⟩] [⟨0, 0, 0⟩, ⟨1, 0, 1⟩] false =
      .ok (some 0, 0) ∧
    ((none, (7 : ℚ)) : Option ℚ × ℚ) ≠ (some 0, 0) := by
  refine ⟨rfl, ?_, ?_, ?_⟩
  · decide
  · decide
  · decide

/-- C2 (amended): get_overpass_track never inspects the optimizer's
convergence flag: flipping res.success to any value leaves the result of
the optimizing branch unchanged, so on non-convergence the call silently
returns the value at the unconverged res.x and no fallback to the coarse
estimate exists. -/
theorem C2_convergence_flag_ignored (O : Oracles) (a b : Track) (s1 s2 : Bool) :
    get_overpass_track (withSuccess1 O s1) a b true =
      get_overpass_track (withSuccess1 O s2) a b true := rfl

/-- C1: for at least 3 points, a valid index sampler and at least one
trial, ransac_fit_circle runs exactly n trials, each fitting the
deterministic circle fitter to exactly the 3 sampled points and scoring it
by the number of points within distance_range of the fitted radius; the
winner is the last tuple of the lexicographically sorted trial list — a
maximum of the tuple order (score, clat, clon, radius) — and the returned
value is the deterministic fitter re-run on exactly the points satisfying
the winning circle's inlier condition. -/
theorem C1_ransac_structure (O : Oracles) (amb : ℕ) (lat lon : List ℚ) (range : ℚ)
    (n : ℕ) (h3 : 3 ≤ lat.length) (hlen : lon.length = lat.length) (hn : 1 ≤ n)
    (hch : ChoiceValid O 12345 lat.length) :
    ((List.range n).map (trialOf O lat lon range)).length = n ∧
    (∀ k, k < n → ∃ c, trial_circle O lat lon k = some c ∧
      trialOf O lat lon range k =
        (countInliers O lat lon c.1 c.2.1 c.2.2 range, c.1, c.2.1, c.2.2)) ∧
    ∃ w, (sortedSamples ((List.range n).map (trialOf O lat lon range))).getLast? =
        some w ∧
      w ∈ (List.range n).map (trialOf O lat lon range) ∧
      (∀ s ∈ (List.range n).map (trialOf O lat lon range), tupLeP s w) ∧
      ransac_fit_circle O amb lat lon range n =
        fit_circle O (selectB lat (inlierFlags O lat lon w.2.1 w.2.2.1 w.2.2.2 range))
          (selectB lon (inlierFlags O lat lon w.2.1 w.2.2.1 w.2.2.2 range)) := by
  refine ⟨by simp, fun k _ => trialOf_eq O lat lon range k, ?_⟩
  have hsne : (List.range n).map (trialOf O lat lon range) ≠ [] := by
    intro hcon
    rw [List.map_eq_nil_iff, List.range_eq_nil] at hcon
    omega
  obtain ⟨w, hw, hmem, hmax⟩ := sortedSamples_getLast_max hsne
  refine ⟨w, hw, hmem, hmax, ?_⟩
  rw [ransac_fit_circle]
  simp only [hw]

lemma oWitness_choice_valid {m : ℕ} (h3 : 3 ≤ m) : ChoiceValid oWitness 12345 m := by
  intro k
  simp only [oWitness]
  exact ⟨by omega, by omega, by omega, by decide, by decide, by decide⟩

/-- C1 witness: the theorem applied at the taxicab oracle with the three
points (0,1), (0,2), (0,3), tolerance 40 and a single trial. -/
theorem C1_ransac_structure_witness :
    ((List.range 1).map (trialOf oWitness [0, 0, 0] [1, 2, 3] 40)).length = 1 :=
  (C1_ransac_structure oWitness 0 [0, 0, 0] [1, 2, 3] 40 1 (by decide) (by decide)
    (by decide) (oWitness_choice_valid (by decide))).1

/-- C9 counterexample: a run in which the winning circle's recomputed
inlier set has only 2 of the 3 points; ransac_fit_circle signals nothing —
it simply re-fits those 2 points and returns the resulting circle. -/
theorem C9_degenerate_counterexample :
    (sortedSamples ((List.range 1).map (trialOf oScaled [0, 0, 0] [1, 2, 3] 40))).getLast? =
      some (2, 0, 2, 200 / 3) ∧
    inlierFlags oScaled [0, 0, 0] [1, 2, 3] 0 2 (200 / 3) 40 = [true, false, true] ∧
    (selectB [0, 0, 0] (inlierFlags oScaled [0, 0, 0] [1, 2, 3] 0 2 (200 / 3) 40)).length = 2 ∧
    ransac_fit_circle oScaled 0 [0, 0, 0] [1, 2, 3] 40 1 = some (0, 2, 100) ∧
    fit_circle oScaled [0, 0] [1, 3] = some (0, 2, 100) := by
  refine ⟨?_, ?_, ?_, ?_, ?_⟩
  · decide
  · decide
  · decide
  · decide
  · decide

/-- C9 (amended): ransac_fit_circle has no FittingFailed signalling at all:
for every input with at least one trial, the value returned is exactly
fit_circle applied to the points selected by the winning circle's inlier
mask, whatever the size of that set — with fewer than 3 (even 1 or 2)
inliers it still returns that re-fit, and only a fully empty selection
yields the NaN triple (modelled none), equally unsignalled. -/
theorem C9_no_fittingfailed (O : Oracles) (amb : ℕ) (lat lon : List ℚ) (range : ℚ)
    (n : ℕ) (hn : 1 ≤ n) :
    ∃ w, (sortedSamples ((List.range n).map (trialOf O lat lon range))).getLast? =
        some w ∧
      ransac_fit_circle O amb lat lon range n =
        fit_circle O (selectB lat (inlierFlags O lat lon w.2.1 w.2.2.1 w.2.2.2 range))
          (selectB lon (inlierFlags O lat lon w.2.1 w.2.2.1 w.2.2.2 range)) := by
  have hsne : (List.range n).map (trialOf O lat lon range) ≠ [] := by
    intro hcon
    rw [List.map_eq_nil_iff, List.range_eq_nil] at hcon
    omega
  obtain ⟨w, hw, _, _⟩ := sortedSamples_getLast_max hsne
  refine ⟨w, hw, ?_⟩
  rw [ransac_fit_circle]
  simp only [hw]

/-- C9 witness: the amended theorem applied at the scaled taxicab oracle on
the degenerate input whose winning inlier set has only 2 points. -/
theorem C9_no_fittingfailed_witness :
    ∃ w, (sortedSamples ((List.range 1).map (trialOf oScaled [0, 0, 0] [1, 2, 3] 40))).getLast? =
        some w ∧
      ransac_fit_circle oScaled 0 [0, 0, 0] [1, 2, 3] 40 1 =
        fit_circle oScaled
          (selectB [0, 0, 0] (inlierFlags oScaled [0, 0, 0] [1, 2, 3] w.2.1 w.2.2.1 w.2.2.2 40))
          (selectB [1, 2, 3] (inlierFlags oScaled [0, 0, 0] [1, 2, 3] w.2.1 w.2.2.1 w.2.2.2 40)) :=
  C9_no_fittingfailed oScaled 0 [0, 0, 0] [1, 2, 3] 40 1 (by decide)
